import Mathlib

/-!
Formal model of the Battleship engine in `src/main.py`.

The Python classes `Dot`, `Ship` and `Board` are embedded as Lean structures;
the board's mutable state is threaded explicitly, and the Python exceptions
(`BoardOutException`, `BoardUsedException`, `BoardWrongShipException`) become an
error type returned next to the (possibly mutated) board, so that "state at the
raise point" is observable.  Machine integers are `Int`; the 6x6 cell grid
`Board.field` is a list of rows of cell glyphs, indexed `field[y][x]` as in the
source.
-/

/-- Class `Dot`: a point on the board, integer coordinates, structural equality
(`Dot.__eq__`). -/
structure Dot where
  x : Int
  y : Int
deriving DecidableEq

/-- The five glyphs a cell of `Board.field` can hold: `_EMPTY_SIGN`,
`_SHIP_SIGN`, `_CONTOUR_SIGN`, `_HIT_SIGN`, `_LOSE_SIGN`. -/
inductive Cell where
  | emptySign
  | shipSign
  | contourSign
  | hitSign
  | loseSign
deriving DecidableEq

/-- Class `Ship`: bow dot, length, orientation code (0 = horizontal,
1 = vertical) and remaining `lives`, initialised to the length by
`Ship.__init__`. -/
structure Ship where
  bow : Dot
  length : Nat
  orientation : Nat
  lives : Int
deriving DecidableEq

/-- `Ship.dots`: the list of dots occupied by the ship.  For `i` in
`range(length)` the bow is offset by `i` along x when `orientation == 0`, along
y when `orientation == 1`, and not at all for any other code (the Python
`if/elif` falls through). -/
def Ship.dots (s : Ship) : List Dot :=
  (List.range s.length).map (fun (i : Nat) =>
    if s.orientation = 0 then { x := s.bow.x + (i : Int), y := s.bow.y }
    else if s.orientation = 1 then { x := s.bow.x, y := s.bow.y + (i : Int) }
    else { x := s.bow.x, y := s.bow.y })

/-- `Ship.shooten`: whether a shot dot hits the ship. -/
def Ship.shooten (s : Ship) (shot : Dot) : Bool :=
  decide (shot ∈ s.dots)

deriving instance DecidableEq for Except

/-- The three board exceptions of the source. -/
inductive BoardError where
  | outException
  | usedException
  | wrongShip
deriving DecidableEq

/-- The three observable outcomes of a successful `Board.shot`: the
`lives == 0` branch ("Ship destroyed!"), the other hit branch ("Ship
wounded!"), and the miss branch ("Miss!").  The Python return value `True`
corresponds to `sunk` or `wounded`, `False` to `missed`. -/
inductive ShotOutcome where
  | sunk
  | wounded
  | missed
deriving DecidableEq

/-- Class `Board` (`Board.__init__`): 6x6 field of glyphs, placed ships, the
`hid` rendering flag, the live-ship counter, the busy dots (ships plus
surrounding contour) and the already-shot dots. -/
structure Board where
  field : List (List Cell)
  ships : List Ship
  hid : Bool
  live_ships : Int
  busy_dots : List Dot
  shot_dots : List Dot
deriving DecidableEq

/-- `Board.__init__(hid)`: empty 6x6 field, no ships, no busy or shot dots. -/
def Board.init (hid : Bool) : Board where
  field := List.replicate 6 (List.replicate 6 Cell.emptySign)
  ships := []
  hid := hid
  live_ships := 0
  busy_dots := []
  shot_dots := []

/-- `Board.out(dot)`: true iff the dot lies outside `[0,6) x [0,6)`. -/
def Board.out (d : Dot) : Bool :=
  !(decide (0 ≤ d.x) && decide (d.x < 6) && decide (0 ≤ d.y) && decide (d.y < 6))

/-- Read `field[d.y][d.x]` (used only at in-bounds dots in the source; out of
range reads default to the empty glyph). -/
def getCell (f : List (List Cell)) (d : Dot) : Cell :=
  (f.getD d.y.toNat []).getD d.x.toNat Cell.emptySign

/-- Write `field[d.y][d.x] = c`. -/
def setCell (f : List (List Cell)) (d : Dot) (c : Cell) : List (List Cell) :=
  f.set d.y.toNat ((f.getD d.y.toNat []).set d.x.toNat c)

/-- The eight relative neighbour offsets `near` of `Board.contour`. -/
def near : List (Int × Int) :=
  [(-1, -1), (-1, 0), (-1, 1), (0, -1), (0, 1), (1, -1), (1, 0), (1, 1)]

/-- First half of one iteration of the inner loop of `Board.contour` at the
candidate contour dot `cur`: when `verb` is set and `cur` is in bounds and its
cell is neither the hit nor the miss glyph, the cell becomes the contour
glyph. -/
def contourField (verb : Bool) (b : Board) (cur : Dot) : Board :=
  if verb = true ∧ Board.out cur = false ∧
      getCell b.field cur ≠ Cell.hitSign ∧ getCell b.field cur ≠ Cell.loseSign then
    { b with field := setCell b.field cur Cell.contourSign }
  else b

/-- Second half of the iteration: independently of `verb`, an in-bounds `cur`
not yet in `busy_dots` is appended to it. -/
def contourBusy (b : Board) (cur : Dot) : Board :=
  if Board.out cur = false ∧ cur ∉ b.busy_dots then
    { b with busy_dots := b.busy_dots ++ [cur] }
  else b

/-- One iteration of the inner loop of `Board.contour`, in source order. -/
def contourStep (verb : Bool) (b : Board) (cur : Dot) : Board :=
  contourBusy (contourField verb b cur) cur

/-- `Board.contour(ship, verb)`: visit the eight neighbours of every ship dot,
applying `contourStep` in source order. -/
def Board.contour (b : Board) (s : Ship) (verb : Bool) : Board :=
  s.dots.foldl
    (fun acc d =>
      near.foldl (fun acc2 off => contourStep verb acc2 { x := d.x + off.1, y := d.y + off.2 }) acc)
    b

/-- The per-dot rejection test of `Board.add_ship`'s first loop:
`self.out(d) or d in self.busy_dots`. -/
def badDot (b : Board) (d : Dot) : Bool :=
  Board.out d || decide (d ∈ b.busy_dots)

/-- One iteration of the mutating second loop of `Board.add_ship`: mark the
dot with the ship glyph and append it to `busy_dots`. -/
def placeDot (acc : Board) (d : Dot) : Board :=
  { acc with
    field := setCell acc.field d Cell.shipSign
    busy_dots := acc.busy_dots ++ [d] }

/-- `Board.add_ship(ship)` continued: the mutating part after the check loop
passed. -/
def Board.add_ship (b : Board) (s : Ship) : Board × Except BoardError Unit :=
  if s.dots.any (badDot b) then
    (b, Except.error BoardError.wrongShip)
  else
    let b1 := s.dots.foldl placeDot b
    let b2 := { b1 with ships := b1.ships ++ [s] }
    let b3 := b2.contour s false
    ({ b3 with live_ships := b3.live_ships + 1 }, Except.ok ())

/-- The ship-scanning loop of `Board.shot`: find the first ship whose dots
contain the shot dot, decrement its lives, and return the updated ship list
together with the updated ship; `none` when no ship is hit. -/
def shotShips (d : Dot) : List Ship → Option (List Ship × Ship)
  | [] => none
  | s :: rest =>
    if d ∈ s.dots then
      let s2 : Ship := { s with lives := s.lives - 1 }
      some (s2 :: rest, s2)
    else
      match shotShips d rest with
      | none => none
      | some (rest2, hit) => some (s :: rest2, hit)

/-- `Board.shot(dot)`: raise `BoardOutException` for an out-of-bounds dot,
`BoardUsedException` for a repeated dot (both before any mutation); otherwise
record the dot in `shot_dots` and scan the ships.  On a hit the cell becomes
the hit glyph; when the ship's lives reach 0 the live-ship counter is
decremented and `contour(ship, verb=True)` runs (outcome `sunk`), otherwise
the outcome is `wounded`.  On a miss the cell becomes the miss glyph. -/
def Board.shot (b : Board) (d : Dot) : Board × Except BoardError ShotOutcome :=
  if Board.out d = true then (b, Except.error BoardError.outException)
  else if d ∈ b.shot_dots then (b, Except.error BoardError.usedException)
  else
    let b0 := { b with shot_dots := b.shot_dots ++ [d] }
    match shotShips d b0.ships with
    | some (ships2, hitShip) =>
      let b1 := { b0 with ships := ships2, field := setCell b0.field d Cell.hitSign }
      if hitShip.lives = 0 then
        let b2 := { b1 with live_ships := b1.live_ships - 1 }
        (b2.contour hitShip true, Except.ok ShotOutcome.sunk)
      else
        (b1, Except.ok ShotOutcome.wounded)
    | none =>
      ({ b0 with field := setCell b0.field d Cell.loseSign }, Except.ok ShotOutcome.missed)

/-- `AI.ask`: the computer's move is `Dot(random.randint(0, 5),
random.randint(0, 5))`; the two parameters stand for the two random samples,
which `random.randint(0, 5)` draws from `[0, 5]`. -/
def AI.ask (rx ry : Int) : Dot :=
  { x := rx, y := ry }

/-- The ship constructed by `Game.try_generate_board` from one random sample:
`Ship(Dot(x, y), length, o)` with lives initialised to the length. -/
def mkShip (x y : Int) (length : Nat) (o : Nat) : Ship :=
  { bow := { x := x, y := y }, length := length, orientation := o, lives := (length : Int) }

/-- The fleet lengths `lens = [3, 2, 2, 1, 1, 1, 1]` of
`Game.try_generate_board`. -/
def fleetLens : List Nat :=
  [3, 2, 2, 1, 1, 1, 1]

/-- The inner `while True` loop of `Game.try_generate_board` for one ship
length.  `rnd n` is the triple of random samples drawn on attempt number `n`.
The Python loop increments the shared attempt counter, returns `None` as soon
as the counter exceeds 2000, and otherwise tries `add_ship` on a freshly
sampled ship, looping on `BoardWrongShipException`.  Here the count-up-to-2000
guard is rendered as the structurally decreasing count-down `fuel = 2000 -
attempts`, which reaches 0 exactly when the Python guard fires, so the
function is total for the same reason the Python loop terminates. -/
def placeShipGo (rnd : Nat → Int × Int × Nat) (length : Nat) :
    Nat → Nat → Board → Option (Nat × Board)
  | 0, _, _ => none
  | fuel + 1, attempts, board =>
    let attempts2 := attempts + 1
    let sample := rnd attempts2
    let res := board.add_ship (mkShip sample.1 sample.2.1 length sample.2.2)
    match res.2 with
    | Except.ok _ => some (attempts2, res.1)
    | Except.error _ => placeShipGo rnd length fuel attempts2 res.1

/-- Place one ship of the given length starting from the given shared attempt
count, with the remaining attempt budget `2000 - attempts`. -/
def placeShipLoop (rnd : Nat → Int × Int × Nat) (length attempts : Nat) (board : Board) :
    Option (Nat × Board) :=
  placeShipGo rnd length (2000 - attempts) attempts board

/-- One step of the outer `for length in lens` loop of
`Game.try_generate_board`: a pending `None` (the give-up `return None`)
propagates, otherwise the next ship length is placed. -/
def genStep (rnd : Nat → Int × Int × Nat) (acc : Option (Nat × Board)) (length : Nat) :
    Option (Nat × Board) :=
  match acc with
  | none => none
  | some (attempts, board) => placeShipLoop rnd length attempts board

/-- `Game.try_generate_board`: place the seven fleet lengths in order on a
fresh board, threading the single attempt counter through all of them;
`none` models the `return None` giving up after 2000 attempts. -/
def try_generate_board (rnd : Nat → Int × Int × Nat) : Option Board :=
  match fleetLens.foldl (genStep rnd) (some (0, Board.init false)) with
  | none => none
  | some (_, board) => some board

set_option maxRecDepth 10000

/-! Basic facts about `Ship.dots`. -/

theorem Ship.dots_length (s : Ship) : s.dots.length = s.length := by
  simp only [Ship.dots, List.length_map, List.length_range]

theorem Ship.dots_horiz (s : Ship) (h : s.orientation = 0) :
    s.dots = (List.range s.length).map (fun (i : Nat) => Dot.mk (s.bow.x + (i : Int)) s.bow.y) := by
  unfold Ship.dots
  apply List.map_congr_left
  intro i _
  rw [if_pos h]

theorem Ship.dots_vert (s : Ship) (h : s.orientation = 1) :
    s.dots = (List.range s.length).map (fun (i : Nat) => Dot.mk s.bow.x (s.bow.y + (i : Int))) := by
  unfold Ship.dots
  apply List.map_congr_left
  intro i _
  have h0 : s.orientation ≠ 0 := by omega
  rw [if_neg h0, if_pos h]

theorem Ship.dots_len1 (x y : Int) (o : Nat) :
    (mkShip x y 1 o).dots = [{ x := x, y := y }] := by
  unfold Ship.dots mkShip
  have hr : List.range 1 = [0] := rfl
  rw [hr]
  simp only [List.map_cons, List.map_nil]
  by_cases h0 : o = 0
  · simp [h0]
  · by_cases h1 : o = 1
    · simp [h0, h1]
    · simp [h0, h1]

theorem Ship.dots_nodup (s : Ship) (ho : s.orientation = 0 ∨ s.orientation = 1) :
    s.dots.Nodup := by
  rcases ho with h | h
  · rw [Ship.dots_horiz s h]
    refine List.Nodup.map ?_ (List.nodup_range _)
    intro i j hij
    have hx := congrArg Dot.x hij
    simp only [add_right_inj, Nat.cast_inj] at hx
    exact hx
  · rw [Ship.dots_vert s h]
    refine List.Nodup.map ?_ (List.nodup_range _)
    intro i j hij
    have hy := congrArg Dot.y hij
    simp only [add_right_inj, Nat.cast_inj] at hy
    exact hy

/-- C6: for a vessel with bow `(x, y)`, length `L` and orientation horizontal
(code 0) or vertical (code 1), `Ship.dots` is the ordered sequence whose
`i`-th element is `(x+i, y)` resp. `(x, y+i)`; it has exactly `L` distinct
coordinates and is collinear along the stated orientation (constant `y` when
horizontal, constant `x` when vertical).  It is a pure function of the ship. -/
theorem ship_dots_spec (bow : Dot) (L : Nat) (o : Nat) (lv : Int)
    (ho : o = 0 ∨ o = 1) :
    (Ship.mk bow L o lv).dots.length = L ∧
    (∀ i : Nat, i < L →
      ((Ship.mk bow L o lv).dots)[i]? =
        some (if o = 0 then { x := bow.x + i, y := bow.y }
              else { x := bow.x, y := bow.y + i })) ∧
    (Ship.mk bow L o lv).dots.Nodup ∧
    (o = 0 → ∀ d ∈ (Ship.mk bow L o lv).dots, d.y = bow.y) ∧
    (o = 1 → ∀ d ∈ (Ship.mk bow L o lv).dots, d.x = bow.x) := by
  refine ⟨Ship.dots_length _, ?_, Ship.dots_nodup _ ho, ?_, ?_⟩
  · intro i hi
    rcases ho with h | h
    · rw [Ship.dots_horiz ⟨bow, L, o, lv⟩ h]
      simp [List.getElem?_range, hi, h]
    · rw [Ship.dots_vert ⟨bow, L, o, lv⟩ h]
      have h0 : o ≠ 0 := by omega
      simp [List.getElem?_range, hi, h0]
  · intro h d hd
    rw [Ship.dots_horiz ⟨bow, L, o, lv⟩ h] at hd
    simp only [List.mem_map, List.mem_range] at hd
    obtain ⟨i, _, rfl⟩ := hd
    rfl
  · intro h d hd
    rw [Ship.dots_vert ⟨bow, L, o, lv⟩ h] at hd
    simp only [List.mem_map, List.mem_range] at hd
    obtain ⟨i, _, rfl⟩ := hd
    rfl

/-- Witness for `ship_dots_spec` at a concrete length-2 horizontal vessel. -/
theorem ship_dots_spec_inst :
    (Ship.mk ⟨0, 0⟩ 2 0 2).dots.length = 2 ∧
    (∀ i : Nat, i < 2 →
      ((Ship.mk ⟨0, 0⟩ 2 0 2).dots)[i]? =
        some (if 0 = 0 then { x := (0 : Int) + i, y := (0 : Int) }
              else { x := (0 : Int), y := (0 : Int) + i })) ∧
    (Ship.mk ⟨0, 0⟩ 2 0 2).dots.Nodup ∧
    ((0 : Nat) = 0 → ∀ d ∈ (Ship.mk ⟨0, 0⟩ 2 0 2).dots, d.y = 0) ∧
    ((0 : Nat) = 1 → ∀ d ∈ (Ship.mk ⟨0, 0⟩ 2 0 2).dots, d.x = 0) :=
  ship_dots_spec ⟨0, 0⟩ 2 0 2 (Or.inl rfl)

/-- Case analysis of `Board.shot`: an out-of-bounds dot raises the out
exception, a repeated dot raises the used exception, anything else succeeds;
the board is returned unchanged in both error cases. -/
theorem shot_shape (b : Board) (d : Dot) :
    (Board.out d = true ∧ Board.shot b d = (b, Except.error BoardError.outException)) ∨
    (Board.out d = false ∧ d ∈ b.shot_dots ∧
      Board.shot b d = (b, Except.error BoardError.usedException)) ∨
    (Board.out d = false ∧ d ∉ b.shot_dots ∧
      ∃ o : ShotOutcome, (Board.shot b d).2 = Except.ok o) := by
  by_cases h1 : Board.out d = true
  · exact Or.inl ⟨h1, by simp [Board.shot, h1]⟩
  · have h1f : Board.out d = false := by simpa using h1
    by_cases h2 : d ∈ b.shot_dots
    · exact Or.inr (Or.inl ⟨h1f, h2, by simp [Board.shot, h1, h2]⟩)
    · refine Or.inr (Or.inr ⟨h1f, h2, ?_⟩)
      simp only [Board.shot, if_neg h1, if_neg h2]
      cases hss : shotShips d b.ships with
      | none => exact ⟨ShotOutcome.missed, by simp [hss]⟩
      | some p =>
        by_cases hl : p.2.lives = 0
        · exact ⟨ShotOutcome.sunk, by simp [hss, hl]⟩
        · exact ⟨ShotOutcome.wounded, by simp [hss, hl]⟩

/-- C1: `Board.shot` fails with the out exception iff the dot has an axis
outside `[0,6)`; when in bounds it fails with the used exception iff the dot
is already in `shot_dots`; on either failure the returned board — field,
ships, busy dots, shot dots, live-ship counter — is exactly the input
board. -/
theorem shot_reject_spec (b : Board) (d : Dot) :
    ((Board.shot b d).2 = Except.error BoardError.outException ↔ Board.out d = true) ∧
    ((Board.shot b d).2 = Except.error BoardError.usedException ↔
      Board.out d = false ∧ d ∈ b.shot_dots) ∧
    (∀ e : BoardError, (Board.shot b d).2 = Except.error e → (Board.shot b d).1 = b) := by
  rcases shot_shape b d with ⟨h1, heq⟩ | ⟨h1, h2, heq⟩ | ⟨h1, h2, o, heq⟩
  · rw [heq]
    refine ⟨by simp [h1], by simp [h1], fun e _ => rfl⟩
  · rw [heq]
    refine ⟨by simp [h1], by simp [h1, h2], fun e _ => rfl⟩
  · rw [heq] at *
    refine ⟨by simp [heq, h1], by simp [heq, h1, h2], fun e he => ?_⟩
    rw [heq] at he
    exact absurd he (by simp)

/-- Witness for `shot_reject_spec`: a fresh board shot at the out-of-bounds
dot `(6, 0)`. -/
theorem shot_reject_spec_inst :
    ((Board.shot (Board.init false) ⟨6, 0⟩).2 = Except.error BoardError.outException ↔
      Board.out ⟨6, 0⟩ = true) ∧
    ((Board.shot (Board.init false) ⟨6, 0⟩).2 = Except.error BoardError.usedException ↔
      Board.out ⟨6, 0⟩ = false ∧ (⟨6, 0⟩ : Dot) ∈ (Board.init false).shot_dots) ∧
    (∀ e : BoardError,
      (Board.shot (Board.init false) ⟨6, 0⟩).2 = Except.error e →
      (Board.shot (Board.init false) ⟨6, 0⟩).1 = Board.init false) :=
  shot_reject_spec (Board.init false) ⟨6, 0⟩

/-- C3: `Board.add_ship` fails with the wrong-ship exception iff some dot of
the ship is out of bounds or already busy; on failure the board is returned
unchanged (the check loop runs before any mutation), so retrying the identical
placement fails identically. -/
theorem add_ship_reject_spec (b : Board) (s : Ship) :
    ((b.add_ship s).2 = Except.error BoardError.wrongShip ↔
      ∃ d ∈ s.dots, Board.out d = true ∨ d ∈ b.busy_dots) ∧
    (∀ e : BoardError, (b.add_ship s).2 = Except.error e → (b.add_ship s).1 = b) ∧
    ((b.add_ship s).2 = Except.error BoardError.wrongShip →
      ((b.add_ship s).1.add_ship s).2 = Except.error BoardError.wrongShip ∧
      ((b.add_ship s).1.add_ship s).1 = b) := by
  by_cases hc : s.dots.any (badDot b) = true
  · have hex : ∃ d ∈ s.dots, Board.out d = true ∨ d ∈ b.busy_dots := by
      rcases List.any_eq_true.mp hc with ⟨d, hd, hbad⟩
      exact ⟨d, hd, by simpa [badDot, Bool.or_eq_true] using hbad⟩
    refine ⟨by simp [Board.add_ship, hc, hex], fun e _ => by simp [Board.add_ship, hc], fun _ => ?_⟩
    constructor
    · simp [Board.add_ship, hc]
    · simp [Board.add_ship, hc]
  · have hne : ¬ ∃ d ∈ s.dots, Board.out d = true ∨ d ∈ b.busy_dots := by
      rintro ⟨d, hd, hor⟩
      exact hc (List.any_eq_true.mpr ⟨d, hd, by simpa [badDot, Bool.or_eq_true] using hor⟩)
    refine ⟨by simp [Board.add_ship, hc, hne], fun e he => ?_, fun hErr => ?_⟩
    · rw [Board.add_ship, if_neg hc] at he
      exact absurd he (by simp)
    · rw [Board.add_ship, if_neg hc] at hErr
      exact absurd hErr (by simp)

/-- Witness for `add_ship_reject_spec`: adding a ship that sticks out of the
board at `(5, 0)` horizontally with length 2. -/
theorem add_ship_reject_spec_inst :
    (((Board.init false).add_ship (mkShip 5 0 2 0)).2 = Except.error BoardError.wrongShip ↔
      ∃ d ∈ (mkShip 5 0 2 0).dots, Board.out d = true ∨ d ∈ (Board.init false).busy_dots) ∧
    (∀ e : BoardError,
      ((Board.init false).add_ship (mkShip 5 0 2 0)).2 = Except.error e →
      ((Board.init false).add_ship (mkShip 5 0 2 0)).1 = Board.init false) ∧
    (((Board.init false).add_ship (mkShip 5 0 2 0)).2 = Except.error BoardError.wrongShip →
      (((Board.init false).add_ship (mkShip 5 0 2 0)).1.add_ship (mkShip 5 0 2 0)).2 =
        Except.error BoardError.wrongShip ∧
      (((Board.init false).add_ship (mkShip 5 0 2 0)).1.add_ship (mkShip 5 0 2 0)).1 =
        Board.init false) :=
  add_ship_reject_spec (Board.init false) (mkShip 5 0 2 0)

/-- The failing branch of `Board.add_ship`, isolated. -/
theorem add_ship_fail (b : Board) (s : Ship) (hc : s.dots.any (badDot b) = true) :
    b.add_ship s = (b, Except.error BoardError.wrongShip) := by
  rw [Board.add_ship, if_pos hc]

/-- The succeeding branch of `Board.add_ship` reports `ok`. -/
theorem add_ship_ok_snd (b : Board) (s : Ship) (hc : s.dots.any (badDot b) = false) :
    (b.add_ship s).2 = Except.ok () := by
  rw [Board.add_ship, if_neg (by simp [hc])]

/-- C5: on an empty 6x6 board, a length-3 horizontal vessel at bow `(0,0)` is
accepted and occupies `(0,0), (1,0), (2,0)`; afterwards a length-1 vessel at
bow `(1,1)` is rejected (contour-blocked) for any orientation code, while a
length-1 vessel at bow `(3,3)` is accepted for any orientation code. -/
theorem placement_demo : ∀ o1 o2 : Nat,
    ((Board.init false).add_ship (mkShip 0 0 3 0)).2 = Except.ok () ∧
    (mkShip 0 0 3 0).dots = [{ x := 0, y := 0 }, { x := 1, y := 0 }, { x := 2, y := 0 }] ∧
    (((Board.init false).add_ship (mkShip 0 0 3 0)).1.add_ship (mkShip 1 1 1 o1)).2 =
      Except.error BoardError.wrongShip ∧
    (((Board.init false).add_ship (mkShip 0 0 3 0)).1.add_ship (mkShip 3 3 1 o2)).2 =
      Except.ok () := by
  intro o1 o2
  refine ⟨by decide, by decide, ?_, ?_⟩
  · have hc : (mkShip 1 1 1 o1).dots.any
        (badDot ((Board.init false).add_ship (mkShip 0 0 3 0)).1) = true := by
      rw [Ship.dots_len1]
      decide
    rw [add_ship_fail _ _ hc]
  · have hc : (mkShip 3 3 1 o2).dots.any
        (badDot ((Board.init false).add_ship (mkShip 0 0 3 0)).1) = false := by
      rw [Ship.dots_len1]
      decide
    exact add_ship_ok_snd _ _ hc

/-! State-preservation machinery: the contour and placement loops never touch
the ship list, the shot record, the live-ship counter or the `hid` flag. -/

/-- The board components untouched by `contour` and by the placement loop. -/
def stateQuad (b : Board) : List Ship × List Dot × Int × Bool :=
  (b.ships, b.shot_dots, b.live_ships, b.hid)

theorem foldl_pres {α β γ : Type _} (proj : α → γ) (step : α → β → α)
    (h : ∀ a x, proj (step a x) = proj a) :
    ∀ (l : List β) (a : α), proj (l.foldl step a) = proj a := by
  intro l
  induction l with
  | nil => intro a; rfl
  | cons x xs ih => intro a; rw [List.foldl_cons, ih, h]

theorem contourStep_quad (v : Bool) (b : Board) (cur : Dot) :
    stateQuad (contourStep v b cur) = stateQuad b := by
  unfold contourStep contourBusy contourField
  split <;> split <;> rfl

theorem contour_quad (b : Board) (s : Ship) (v : Bool) :
    stateQuad (b.contour s v) = stateQuad b := by
  unfold Board.contour
  refine foldl_pres stateQuad _ (fun a d => ?_) s.dots b
  exact foldl_pres stateQuad _ (fun a2 off => contourStep_quad v a2 _) near a

theorem placeFold_quad (l : List Dot) (b : Board) :
    stateQuad (l.foldl placeDot b) = stateQuad b :=
  foldl_pres stateQuad placeDot (fun _ _ => rfl) l b

theorem quad_ships {b c : Board} (h : stateQuad b = stateQuad c) : b.ships = c.ships :=
  congrArg (fun q => q.1) h

theorem quad_shot {b c : Board} (h : stateQuad b = stateQuad c) : b.shot_dots = c.shot_dots :=
  congrArg (fun q => q.2.1) h

theorem quad_live {b c : Board} (h : stateQuad b = stateQuad c) : b.live_ships = c.live_ships :=
  congrArg (fun q => q.2.2.1) h

theorem quad_hid {b c : Board} (h : stateQuad b = stateQuad c) : b.hid = c.hid :=
  congrArg (fun q => q.2.2.2) h

/-- Effect of a successful `add_ship` on the non-field components: the ship is
appended, the shot record is untouched and the live-ship counter grows by
one. -/
theorem add_ship_ok_char (b : Board) (s : Ship) (hc : s.dots.any (badDot b) = false) :
    (b.add_ship s).1.ships = b.ships ++ [s] ∧
    (b.add_ship s).1.shot_dots = b.shot_dots ∧
    (b.add_ship s).1.live_ships = b.live_ships + 1 ∧
    (b.add_ship s).1.hid = b.hid ∧
    (b.add_ship s).2 = Except.ok () := by
  rw [Board.add_ship, if_neg (by simp [hc])]
  have h1 := placeFold_quad s.dots b
  have h2 := contour_quad
    { s.dots.foldl placeDot b with ships := (s.dots.foldl placeDot b).ships ++ [s] } s false
  refine ⟨?_, ?_, ?_, ?_, rfl⟩
  · show ({ s.dots.foldl placeDot b with
      ships := (s.dots.foldl placeDot b).ships ++ [s] }.contour s false).ships = b.ships ++ [s]
    rw [quad_ships h2]
    show (s.dots.foldl placeDot b).ships ++ [s] = b.ships ++ [s]
    rw [quad_ships h1]
  · show ({ s.dots.foldl placeDot b with
      ships := (s.dots.foldl placeDot b).ships ++ [s] }.contour s false).shot_dots = b.shot_dots
    rw [quad_shot h2]
    show (s.dots.foldl placeDot b).shot_dots = b.shot_dots
    rw [quad_shot h1]
  · show ({ s.dots.foldl placeDot b with
      ships := (s.dots.foldl placeDot b).ships ++ [s] }.contour s false).live_ships + 1 =
        b.live_ships + 1
    rw [quad_live h2]
    show (s.dots.foldl placeDot b).live_ships + 1 = b.live_ships + 1
    rw [quad_live h1]
  · show ({ s.dots.foldl placeDot b with
      ships := (s.dots.foldl placeDot b).ships ++ [s] }.contour s false).hid = b.hid
    rw [quad_hid h2]
    show (s.dots.foldl placeDot b).hid = b.hid
    rw [quad_hid h1]

/-- The miss branch of `Board.shot`, isolated. -/
theorem shot_miss_char (b : Board) (d : Dot) (h1 : ¬ Board.out d = true) (h2 : d ∉ b.shot_dots)
    (hss : shotShips d b.ships = none) :
    Board.shot b d =
      ({ b with shot_dots := b.shot_dots ++ [d],
                field := setCell b.field d Cell.loseSign }, Except.ok ShotOutcome.missed) := by
  rw [Board.shot, if_neg h1, if_neg h2]
  show (match shotShips d b.ships with
    | some (ships2, hitShip) => _
    | none => _) = _
  rw [hss]

/-- The hit branches of `Board.shot`, isolated. -/
theorem shot_hit_char (b : Board) (d : Dot) (ships2 : List Ship) (hit : Ship)
    (h1 : ¬ Board.out d = true) (h2 : d ∉ b.shot_dots)
    (hss : shotShips d b.ships = some (ships2, hit)) :
    Board.shot b d =
      if hit.lives = 0 then
        (Board.contour
          { b with shot_dots := b.shot_dots ++ [d], ships := ships2,
                   field := setCell b.field d Cell.hitSign,
                   live_ships := b.live_ships - 1 } hit true,
         Except.ok ShotOutcome.sunk)
      else
        ({ b with shot_dots := b.shot_dots ++ [d], ships := ships2,
                  field := setCell b.field d Cell.hitSign }, Except.ok ShotOutcome.wounded) := by
  rw [Board.shot, if_neg h1, if_neg h2]
  show (match shotShips d b.ships with
    | some (ships2, hitShip) => _
    | none => _) = _
  rw [hss]

/-! Characterisation of the ship-scanning loop of `Board.shot`. -/

theorem shotShips_none_mem (d : Dot) :
    ∀ ships : List Ship, shotShips d ships = none → ∀ s ∈ ships, d ∉ s.dots := by
  intro ships
  induction ships with
  | nil => intro _ s hs; cases hs
  | cons s rest ih =>
    intro h t ht
    rw [shotShips] at h
    by_cases hd : d ∈ s.dots
    · rw [if_pos hd] at h; cases h
    · rw [if_neg hd] at h
      rcases List.mem_cons.mp ht with rfl | htr
      · exact hd
      · cases hr : shotShips d rest with
        | none => exact ih hr t htr
        | some q => rw [hr] at h; cases h

theorem shotShips_eq_none (d : Dot) :
    ∀ ships : List Ship, (∀ s ∈ ships, d ∉ s.dots) → shotShips d ships = none := by
  intro ships
  induction ships with
  | nil => intro _; rfl
  | cons s rest ih =>
    intro h
    rw [shotShips, if_neg (h s (List.mem_cons_self s rest)), ih (fun t ht => h t (List.mem_cons_of_mem s ht))]

/-- A successful scan splits the ship list around the first ship containing
the dot; that ship alone has its lives decremented. -/
theorem shotShips_some_char (d : Dot) :
    ∀ (ships : List Ship) (p : List Ship × Ship), shotShips d ships = some p →
      ∃ pre s post, ships = pre ++ s :: post ∧ (∀ t ∈ pre, d ∉ t.dots) ∧ d ∈ s.dots ∧
        p.2 = { s with lives := s.lives - 1 } ∧ p.1 = pre ++ p.2 :: post := by
  intro ships
  induction ships with
  | nil => intro p h; cases h
  | cons s rest ih =>
    intro p h
    rw [shotShips] at h
    by_cases hd : d ∈ s.dots
    · rw [if_pos hd] at h
      refine ⟨[], s, rest, rfl, by simp, hd, ?_, ?_⟩
      · cases h; rfl
      · cases h; rfl
    · rw [if_neg hd] at h
      cases hr : shotShips d rest with
      | none => rw [hr] at h; cases h
      | some q =>
        rw [hr] at h
        obtain ⟨pre, t, post, hsplit, hpre, htd, hq2, hq1⟩ := ih q hr
        cases h
        exact ⟨s :: pre, t, post, by rw [hsplit]; rfl,
          fun u hu => by
            rcases List.mem_cons.mp hu with rfl | hupre
            · exact hd
            · exact hpre u hupre,
          htd, hq2, by rw [hq1]; rfl⟩

/-- Changing only `lives` does not change the occupied dots. -/
theorem Ship.dots_lives (s : Ship) (l : Int) : ({ s with lives := l } : Ship).dots = s.dots := rfl

/-! Hit-count invariant: each ship's remaining lives dominate its length minus
the number of its dots already fired at. -/

/-- Number of dots of the ship that are already in the shot record. -/
def hitCount (sd : List Dot) (s : Ship) : Nat :=
  s.dots.countP (fun e => decide (e ∈ sd))

/-- Per-ship invariant relating lives, length and the shot record. -/
def ShipInv (sd : List Dot) (s : Ship) : Prop :=
  s.dots.Nodup ∧ (s.length : Int) - (hitCount sd s : Int) ≤ s.lives

theorem hitCount_le (sd : List Dot) (s : Ship) : hitCount sd s ≤ s.length := by
  rw [← Ship.dots_length]
  exact List.countP_le_length _

theorem hitCount_mono (sd ext : List Dot) (s : Ship) :
    hitCount sd s ≤ hitCount (sd ++ ext) s := by
  apply List.countP_mono_left
  intro a _ h
  simp only [decide_eq_true_eq, List.mem_append] at h ⊢
  exact Or.inl h

theorem ShipInv_mono (sd ext : List Dot) (s : Ship) (h : ShipInv sd s) :
    ShipInv (sd ++ ext) s := by
  refine ⟨h.1, le_trans ?_ h.2⟩
  have := hitCount_mono sd ext s
  omega

theorem countP_mem_append_single (l sd : List Dot) (d : Dot)
    (hd : d ∈ l) (hnd : d ∉ sd) (hn : l.Nodup) :
    l.countP (fun e => decide (e ∈ sd ++ [d])) = l.countP (fun e => decide (e ∈ sd)) + 1 := by
  induction l with
  | nil => cases hd
  | cons a l ih =>
    rw [List.countP_cons, List.countP_cons]
    rcases List.mem_cons.mp hd with rfl | hdl
    · have hdnl : d ∉ l := (List.nodup_cons.mp hn).1
      have e1 : l.countP (fun e => decide (e ∈ sd ++ [d])) =
          l.countP (fun e => decide (e ∈ sd)) := by
        apply List.countP_congr
        intro e he
        have hne : e ≠ d := fun h => hdnl (h ▸ he)
        simp [List.mem_append, hne]
      rw [e1]
      simp [List.mem_append, hnd]
    · have hne : a ≠ d := fun h => (List.nodup_cons.mp hn).1 (h ▸ hdl)
      rw [ih hdl (List.nodup_cons.mp hn).2]
      have e2 : (decide (a ∈ sd ++ [d])) = (decide (a ∈ sd)) := by
        simp [List.mem_append, hne]
      rw [e2]
      omega

theorem hitCount_bump (sd : List Dot) (d : Dot) (s : Ship)
    (hd : d ∈ s.dots) (hnd : d ∉ sd) (hn : s.dots.Nodup) :
    hitCount (sd ++ [d]) s = hitCount sd s + 1 :=
  countP_mem_append_single s.dots sd d hd hnd hn

theorem hitCount_lt (sd : List Dot) (s : Ship) (d : Dot)
    (hd : d ∈ s.dots) (hnd : d ∉ sd) : hitCount sd s < s.length := by
  rcases Nat.lt_or_ge (hitCount sd s) s.length with h | h
  · exact h
  · exfalso
    have he : hitCount sd s = s.dots.length := by
      have h2 := hitCount_le sd s
      rw [Ship.dots_length]
      omega
    have hall := List.countP_eq_length.mp he
    have := hall d hd
    simp only [decide_eq_true_eq] at this
    exact hnd this

/-- A ship whose lives have reached 0 has all of its dots in the shot
record. -/
theorem sunk_all_fired (sd : List Dot) (s : Ship) (hinv : ShipInv sd s)
    (h0 : s.lives ≤ 0) : ∀ e ∈ s.dots, e ∈ sd := by
  have hle := hitCount_le sd s
  have hge : s.length ≤ hitCount sd s := by
    have := hinv.2
    omega
  have he : hitCount sd s = s.dots.length := by
    rw [Ship.dots_length]
    omega
  have hall := List.countP_eq_length.mp he
  intro e he2
  have := hall e he2
  simpa using this

/-- The ship hit by a shot at a fresh dot had at least one live left. -/
theorem hit_ship_live (sd : List Dot) (s : Ship) (d : Dot) (hinv : ShipInv sd s)
    (hd : d ∈ s.dots) (hnd : d ∉ sd) : 1 ≤ s.lives := by
  have := hitCount_lt sd s d hd hnd
  have := hinv.2
  omega

/-- The number of live ships actually in the list. -/
def liveCount (ships : List Ship) : Nat :=
  (ships.filter (fun s => decide (0 < s.lives))).length

/-- Board invariant: every placed ship satisfies the per-ship invariant with
respect to the shot record, and `live_ships` counts the ships with positive
lives. -/
def BoardInv (b : Board) : Prop :=
  (∀ s ∈ b.ships, ShipInv b.shot_dots s) ∧
  b.live_ships = (liveCount b.ships : Int)

/-- A vessel as the game constructs them: orientation code 0 or 1, lives
initialised to the length, length at least 1 (the fleet uses 3, 2, 2, 1, 1,
1, 1). -/
def WFShip (s : Ship) : Prop :=
  (s.orientation = 0 ∨ s.orientation = 1) ∧ s.lives = (s.length : Int) ∧ 1 ≤ s.length

/-- The boards reachable in a game: a fresh board, mutated by `add_ship` with
game-shaped vessels and by `shot` at arbitrary dots, counting failed calls
(which return the board at the raise point) as well as successful ones. -/
inductive Reachable : Board → Prop where
  | init (hid : Bool) : Reachable (Board.init hid)
  | add {b : Board} (s : Ship) (hs : WFShip s) (hb : Reachable b) : Reachable (b.add_ship s).1
  | shoot {b : Board} (d : Dot) (hb : Reachable b) : Reachable (b.shot d).1

theorem liveCount_append (l1 l2 : List Ship) :
    liveCount (l1 ++ l2) = liveCount l1 + liveCount l2 := by
  unfold liveCount
  rw [List.filter_append, List.length_append]

theorem liveCount_cons_pos (s : Ship) (l : List Ship) (h : 0 < s.lives) :
    liveCount (s :: l) = liveCount l + 1 := by
  unfold liveCount
  rw [List.filter_cons, if_pos (by simpa using h)]
  simp [List.length_cons, Nat.add_comm]

theorem liveCount_cons_nonpos (s : Ship) (l : List Ship) (h : ¬ 0 < s.lives) :
    liveCount (s :: l) = liveCount l := by
  unfold liveCount
  rw [List.filter_cons, if_neg (by simpa using h)]

/-- Invariant step for a shot that hits: the updated ship list satisfies the
invariant for the grown shot record, the hit ship's new lives are nonnegative,
and the live count drops exactly when the hit ship's lives reached 0. -/
theorem shot_hit_inv (ships : List Ship) (sd : List Dot) (d : Dot)
    (ships2 : List Ship) (hit : Ship)
    (hss : shotShips d ships = some (ships2, hit))
    (hnd : d ∉ sd) (hinv : ∀ s ∈ ships, ShipInv sd s) :
    (∀ s ∈ ships2, ShipInv (sd ++ [d]) s) ∧ 0 ≤ hit.lives ∧
    liveCount ships2 + (if hit.lives = 0 then 1 else 0) = liveCount ships := by
  obtain ⟨pre, s0, post, hsplit, hpre, hd0, hhit, hships2⟩ :=
    shotShips_some_char d ships (ships2, hit) hss
  dsimp only at hhit hships2
  have hinv0 : ShipInv sd s0 := hinv s0 (by rw [hsplit]; simp)
  have hlive0 : 1 ≤ s0.lives := hit_ship_live sd s0 d hinv0 hd0 hnd
  have hhitlives : hit.lives = s0.lives - 1 := by rw [hhit]
  have hhitdots : hit.dots = s0.dots := by rw [hhit]; rfl
  have hhitlen : hit.length = s0.length := by rw [hhit]
  refine ⟨?_, by omega, ?_⟩
  · intro t ht
    rw [hships2] at ht
    rcases List.mem_append.mp ht with htp | htc
    · exact ShipInv_mono sd [d] t (hinv t (by rw [hsplit]; exact List.mem_append_left _ htp))
    · rcases List.mem_cons.mp htc with rfl | htpost
      · refine ⟨hhitdots ▸ hinv0.1, ?_⟩
        have hbump : hitCount (sd ++ [d]) t = hitCount sd s0 + 1 := by
          unfold hitCount
          rw [hhitdots]
          exact countP_mem_append_single s0.dots sd d hd0 hnd hinv0.1
        rw [hbump, hhitlen, hhitlives]
        have h2 := hinv0.2
        push_cast
        push_cast at h2
        omega
      · exact ShipInv_mono sd [d] t
          (hinv t (by rw [hsplit]; exact List.mem_append_right _ (List.mem_cons_of_mem _ htpost)))
  · rw [hsplit, hships2, liveCount_append, liveCount_append]
    by_cases hz : hit.lives = 0
    · rw [liveCount_cons_nonpos hit post (by omega),
        liveCount_cons_pos s0 post (by omega), if_pos hz]
      ring
    · rw [liveCount_cons_pos hit post (by omega),
        liveCount_cons_pos s0 post (by omega), if_neg hz]
      omega

/-- Every reachable board satisfies the board invariant; in particular
`live_ships` always equals the number of placed vessels with positive
remaining lives. -/
theorem reachable_inv : ∀ b : Board, Reachable b → BoardInv b := by
  intro b h
  induction h with
  | init hid =>
    exact ⟨fun s hs => absurd hs (List.not_mem_nil s), rfl⟩
  | add s hs hb ih =>
    rename_i b0
    by_cases hc : s.dots.any (badDot b0) = true
    · rw [add_ship_fail _ _ hc]
      exact ih
    · have hcf : s.dots.any (badDot b0) = false := by simpa using hc
      obtain ⟨hships, hshot, hlive, -, -⟩ := add_ship_ok_char b0 s hcf
      constructor
      · intro t ht
        rw [hships] at ht
        rw [hshot]
        rcases List.mem_append.mp ht with htold | htnew
        · exact ih.1 t htold
        · have hts : t = s := by simpa using htnew
          subst hts
          refine ⟨Ship.dots_nodup t hs.1, ?_⟩
          rw [hs.2.1]
          have hnn : 0 ≤ (hitCount b0.shot_dots t : Int) := by positivity
          omega
      · rw [hlive, hships, liveCount_append]
        have hpos : 0 < s.lives := by
          have h1 : s.lives = (s.length : Int) := hs.2.1
          have h2 : 1 ≤ s.length := hs.2.2
          rw [h1]
          exact_mod_cast h2
        rw [liveCount_cons_pos s [] hpos, ih.2]
        have h0 : liveCount ([] : List Ship) = 0 := rfl
        rw [h0]
        push_cast
        ring
  | shoot d hb ih =>
    rename_i b0
    rcases shot_shape b0 d with ⟨_, heq⟩ | ⟨_, _, heq⟩ | ⟨h1, h2, o, hok⟩
    · rw [heq]; exact ih
    · rw [heq]; exact ih
    · have h1n : ¬ Board.out d = true := by simp [h1]
      cases hss : shotShips d b0.ships with
      | none =>
        rw [shot_miss_char b0 d h1n h2 hss]
        exact ⟨fun t ht => ShipInv_mono b0.shot_dots [d] t (ih.1 t ht), ih.2⟩
      | some p =>
        obtain ⟨ships2, hit⟩ := p
        have hstep := shot_hit_inv b0.ships b0.shot_dots d ships2 hit hss h2 ih.1
        rw [shot_hit_char b0 d ships2 hit h1n h2 hss]
        by_cases hz : hit.lives = 0
        · rw [if_pos hz]
          have hq := contour_quad
            { b0 with
              shot_dots := b0.shot_dots ++ [d], ships := ships2,
              field := setCell b0.field d Cell.hitSign,
              live_ships := b0.live_ships - 1 } hit true
          constructor
          · intro t ht
            rw [quad_ships hq] at ht
            rw [quad_shot hq]
            exact hstep.1 t ht
          · rw [quad_live hq, quad_ships hq]
            have hcount := hstep.2.2
            rw [if_pos hz] at hcount
            have hl := ih.2
            show b0.live_ships - 1 = (liveCount ships2 : Int)
            rw [hl]
            omega
        · rw [if_neg hz]
          constructor
          · intro t ht
            exact hstep.1 t ht
          · have hcount := hstep.2.2
            rw [if_neg hz] at hcount
            have hl := ih.2
            show b0.live_ships = (liveCount ships2 : Int)
            rw [hl]
            omega

/-- C4: `live_ships` equals the number of placed vessels with positive
remaining lives on the empty board, and the equality is preserved by every
`add_ship` and every `shot`, successful or failed — i.e. it holds for every
reachable board. -/
theorem live_count_invariant (b : Board) (h : Reachable b) :
    b.live_ships = (liveCount b.ships : Int) :=
  (reachable_inv b h).2

/-- Witness for `live_count_invariant`: the board obtained by placing the
length-3 ship at the origin on a fresh board. -/
theorem live_count_invariant_inst :
    ((Board.init false).add_ship (mkShip 0 0 3 0)).1.live_ships =
      (liveCount ((Board.init false).add_ship (mkShip 0 0 3 0)).1.ships : Int) :=
  live_count_invariant ((Board.init false).add_ship (mkShip 0 0 3 0)).1
    (Reachable.add (mkShip 0 0 3 0) ⟨Or.inl rfl, rfl, by decide⟩ (Reachable.init false))

/-! Field-shape machinery: the 6x6 shape of `Board.field` and the behaviour
of `getCell`/`setCell` at in-bounds dots. -/

/-- A well-shaped field: 6 rows of 6 cells. -/
def FieldShape (f : List (List Cell)) : Prop :=
  f.length = 6 ∧ ∀ r ∈ f, r.length = 6

theorem out_false_iff (d : Dot) :
    Board.out d = false ↔ 0 ≤ d.x ∧ d.x < 6 ∧ 0 ≤ d.y ∧ d.y < 6 := by
  simp [Board.out, and_assoc]

theorem toNat_lt6_of_in (a : Int) (h0 : 0 ≤ a) (h6 : a < 6) : a.toNat < 6 := by
  omega

theorem setCell_shape (f : List (List Cell)) (d : Dot) (c : Cell) (hf : FieldShape f) :
    FieldShape (setCell f d c) := by
  constructor
  · rw [setCell, List.length_set]
    exact hf.1
  · intro r hr
    by_cases hlt : d.y.toNat < f.length
    · rcases List.mem_or_eq_of_mem_set hr with hmem | heq
      · exact hf.2 r hmem
      · rw [heq, List.length_set, List.getD_eq_getElem f [] hlt]
        exact hf.2 _ (List.getElem_mem hlt)
    · rw [setCell, List.set_eq_of_length_le (by omega)] at hr
      exact hf.2 r hr

theorem getD_set_self {α : Type _} (l : List α) (i : Nat) (a dflt : α) (h : i < l.length) :
    (l.set i a).getD i dflt = a := by
  rw [List.getD_eq_getElem _ dflt (by rw [List.length_set]; exact h)]
  exact List.getElem_set_self (by rw [List.length_set]; exact h)

theorem getD_set_ne {α : Type _} (l : List α) (i j : Nat) (a dflt : α) (hij : i ≠ j) :
    (l.set i a).getD j dflt = l.getD j dflt := by
  by_cases hj : j < l.length
  · rw [List.getD_eq_getElem _ dflt (by rw [List.length_set]; exact hj),
      List.getD_eq_getElem _ dflt hj]
    exact List.getElem_set_ne hij _
  · rw [List.getD_eq_default _ dflt (by rw [List.length_set]; omega),
      List.getD_eq_default _ dflt (by omega)]

theorem getCell_setCell_self (f : List (List Cell)) (d : Dot) (c : Cell)
    (hf : FieldShape f) (hd : Board.out d = false) :
    getCell (setCell f d c) d = c := by
  obtain ⟨hx0, hx6, hy0, hy6⟩ := (out_false_iff d).mp hd
  have h6 := hf.1
  have hylt : d.y.toNat < f.length := by omega
  have hrow : (f.getD d.y.toNat []).length = 6 := by
    rw [List.getD_eq_getElem f [] hylt]
    exact hf.2 _ (List.getElem_mem hylt)
  simp only [getCell, setCell]
  rw [getD_set_self f d.y.toNat _ [] hylt]
  exact getD_set_self _ d.x.toNat c Cell.emptySign (by omega)

theorem getCell_setCell_ne (f : List (List Cell)) (d e : Dot) (c : Cell)
    (hf : FieldShape f) (hd : Board.out d = false) (he : Board.out e = false)
    (hne : e ≠ d) :
    getCell (setCell f d c) e = getCell f e := by
  obtain ⟨hdx0, hdx6, hdy0, hdy6⟩ := (out_false_iff d).mp hd
  obtain ⟨hex0, hex6, hey0, hey6⟩ := (out_false_iff e).mp he
  have h6 := hf.1
  have hdylt : d.y.toNat < f.length := by omega
  simp only [getCell, setCell]
  by_cases hyy : e.y.toNat = d.y.toNat
  · have hxx : d.x.toNat ≠ e.x.toNat := by
      intro hx
      apply hne
      have hx2 : e.x = d.x := by omega
      have hy2 : e.y = d.y := by omega
      cases e; cases d
      simp_all
    rw [hyy, getD_set_self f d.y.toNat _ [] hdylt]
    exact getD_set_ne _ d.x.toNat e.x.toNat c Cell.emptySign hxx
  · rw [getD_set_ne f d.y.toNat e.y.toNat _ [] (fun h => hyy h.symm)]

theorem foldl_inv {α β : Type _} (P : α → Prop) (step : α → β → α)
    (h : ∀ a x, P a → P (step a x)) :
    ∀ (l : List β) (a : α), P a → P (l.foldl step a) := by
  intro l
  induction l with
  | nil => intro a ha; exact ha
  | cons x xs ih => intro a ha; rw [List.foldl_cons]; exact ih _ (h a x ha)

/-- A contour iteration keeps the field well-shaped and never overwrites a hit
cell. -/
theorem contourStep_keep (v : Bool) (b : Board) (cur : Dot) (d : Dot)
    (hd : Board.out d = false)
    (h : FieldShape b.field ∧ getCell b.field d = Cell.hitSign) :
    FieldShape (contourStep v b cur).field ∧
    getCell (contourStep v b cur).field d = Cell.hitSign := by
  have hfld : ∀ bb : Board, (contourBusy bb cur).field = bb.field := by
    intro bb
    unfold contourBusy
    split <;> rfl
  unfold contourStep
  rw [hfld]
  unfold contourField
  split
  · rename_i hc
    constructor
    · exact setCell_shape b.field cur Cell.contourSign h.1
    · have hne : d ≠ cur := by
        intro hdc
        exact hc.2.2.1 (by rw [← hdc]; exact h.2)
      rw [getCell_setCell_ne b.field cur d Cell.contourSign h.1 hc.2.1 hd hne]
      exact h.2
  · exact h

/-- `Board.contour` keeps the field well-shaped and never overwrites a hit
cell. -/
theorem contour_keep (b : Board) (s : Ship) (v : Bool) (d : Dot)
    (hd : Board.out d = false)
    (h : FieldShape b.field ∧ getCell b.field d = Cell.hitSign) :
    FieldShape (b.contour s v).field ∧
    getCell (b.contour s v).field d = Cell.hitSign := by
  unfold Board.contour
  refine foldl_inv (fun bb => FieldShape bb.field ∧ getCell bb.field d = Cell.hitSign)
    _ (fun a dd ha => ?_) s.dots b h
  exact foldl_inv _ _ (fun a2 off ha2 => contourStep_keep v a2 _ d hd ha2) near a ha

/-- C2: a successful shot at an occupied dot decrements the first matching
vessel's lives and sets the cell to the hit glyph; the outcome is `sunk`
exactly when the lives thereby reach 0, in which case `live_ships` is
decremented and `contour(vessel, verb=True)` is invoked, and `wounded`
otherwise.  On a reachable board lives never go negative, a vessel whose
lives have reached 0 has all dots already fired so no later shot at it can
succeed — lives reach 0 at most once, `sunk` is returned exactly on the
transition, and prior hits return `wounded`. -/
theorem shot_hit_spec (b : Board) (d : Dot) (ships2 : List Ship) (hit : Ship)
    (hR : Reachable b) (hf : FieldShape b.field)
    (h1 : Board.out d = false) (h2 : d ∉ b.shot_dots)
    (hss : shotShips d b.ships = some (ships2, hit)) :
    (∃ pre s0 post, b.ships = pre ++ s0 :: post ∧ (∀ t ∈ pre, d ∉ t.dots) ∧ d ∈ s0.dots ∧
      hit = { s0 with lives := s0.lives - 1 } ∧ ships2 = pre ++ hit :: post) ∧
    ((Board.shot b d).1.ships = ships2 ∧
    (Board.shot b d).1.shot_dots = b.shot_dots ++ [d] ∧
    getCell (Board.shot b d).1.field d = Cell.hitSign ∧
    0 ≤ hit.lives ∧
    (hit.lives = 0 →
      (Board.shot b d).2 = Except.ok ShotOutcome.sunk ∧
      (Board.shot b d).1.live_ships = b.live_ships - 1 ∧
      (Board.shot b d).1 =
        Board.contour
          { b with
            shot_dots := b.shot_dots ++ [d], ships := ships2,
            field := setCell b.field d Cell.hitSign,
            live_ships := b.live_ships - 1 } hit true) ∧
    (hit.lives ≠ 0 →
      (Board.shot b d).2 = Except.ok ShotOutcome.wounded ∧
      (Board.shot b d).1.live_ships = b.live_ships) ∧
    (∀ s ∈ b.ships, s.lives = 0 → ∀ e ∈ s.dots,
      e ∈ b.shot_dots ∧ ∀ o : ShotOutcome, (Board.shot b e).2 ≠ Except.ok o)) := by
  have h1n : ¬ Board.out d = true := by simp [h1]
  have hchar := shot_hit_char b d ships2 hit h1n h2 hss
  have hinv := reachable_inv b hR
  have hstep := shot_hit_inv b.ships b.shot_dots d ships2 hit hss h2 hinv.1
  have hsunk : ∀ s ∈ b.ships, s.lives = 0 → ∀ e ∈ s.dots,
      e ∈ b.shot_dots ∧ ∀ o : ShotOutcome, (Board.shot b e).2 ≠ Except.ok o := by
    intro s hs hl e he
    have hmem : e ∈ b.shot_dots := sunk_all_fired b.shot_dots s (hinv.1 s hs) (by omega) e he
    refine ⟨hmem, fun o hok => ?_⟩
    rcases shot_shape b e with ⟨_, heq⟩ | ⟨_, _, heq⟩ | ⟨_, hnotmem, _⟩
    · rw [heq] at hok; cases hok
    · rw [heq] at hok; cases hok
    · exact hnotmem hmem
  refine ⟨shotShips_some_char d b.ships (ships2, hit) hss, ?_⟩
  by_cases hz : hit.lives = 0
  · rw [hchar, if_pos hz]
    have hq := contour_quad
      { b with
        shot_dots := b.shot_dots ++ [d], ships := ships2,
        field := setCell b.field d Cell.hitSign,
        live_ships := b.live_ships - 1 } hit true
    have hkeep := contour_keep
      { b with
        shot_dots := b.shot_dots ++ [d], ships := ships2,
        field := setCell b.field d Cell.hitSign,
        live_ships := b.live_ships - 1 } hit true d h1
      ⟨setCell_shape b.field d Cell.hitSign hf, getCell_setCell_self b.field d Cell.hitSign hf h1⟩
    exact ⟨quad_ships hq, quad_shot hq, hkeep.2, hstep.2.1,
      fun _ => ⟨rfl, quad_live hq, rfl⟩, fun hne => absurd hz hne, hsunk⟩
  · rw [hchar, if_neg hz]
    exact ⟨rfl, rfl, getCell_setCell_self b.field d Cell.hitSign hf h1, hstep.2.1,
      fun h0 => absurd h0 hz, fun _ => ⟨rfl, rfl⟩, hsunk⟩

instance (f : List (List Cell)) : Decidable (FieldShape f) := by
  unfold FieldShape
  infer_instance

/-- A concrete board with a single length-1 ship at the origin. -/
def demoBoard : Board := ((Board.init false).add_ship (mkShip 0 0 1 0)).1

/-- The state of that ship after being hit once. -/
def demoHit : Ship := { bow := { x := 0, y := 0 }, length := 1, orientation := 0, lives := 0 }

/-- Witness for `shot_hit_spec`: shooting the origin on `demoBoard` sinks the
length-1 ship. -/
theorem shot_hit_spec_inst :
    (∃ pre s0 post, demoBoard.ships = pre ++ s0 :: post ∧
      (∀ t ∈ pre, ({ x := 0, y := 0 } : Dot) ∉ t.dots) ∧
      ({ x := 0, y := 0 } : Dot) ∈ s0.dots ∧
      demoHit = { s0 with lives := s0.lives - 1 } ∧ [demoHit] = pre ++ demoHit :: post) ∧
    ((Board.shot demoBoard { x := 0, y := 0 }).1.ships = [demoHit] ∧
    (Board.shot demoBoard { x := 0, y := 0 }).1.shot_dots =
      demoBoard.shot_dots ++ [{ x := 0, y := 0 }] ∧
    getCell (Board.shot demoBoard { x := 0, y := 0 }).1.field { x := 0, y := 0 } =
      Cell.hitSign ∧
    0 ≤ demoHit.lives ∧
    (demoHit.lives = 0 →
      (Board.shot demoBoard { x := 0, y := 0 }).2 = Except.ok ShotOutcome.sunk ∧
      (Board.shot demoBoard { x := 0, y := 0 }).1.live_ships = demoBoard.live_ships - 1 ∧
      (Board.shot demoBoard { x := 0, y := 0 }).1 =
        Board.contour
          { demoBoard with
            shot_dots := demoBoard.shot_dots ++ [{ x := 0, y := 0 }], ships := [demoHit],
            field := setCell demoBoard.field { x := 0, y := 0 } Cell.hitSign,
            live_ships := demoBoard.live_ships - 1 } demoHit true) ∧
    (demoHit.lives ≠ 0 →
      (Board.shot demoBoard { x := 0, y := 0 }).2 = Except.ok ShotOutcome.wounded ∧
      (Board.shot demoBoard { x := 0, y := 0 }).1.live_ships = demoBoard.live_ships) ∧
    (∀ s ∈ demoBoard.ships, s.lives = 0 → ∀ e ∈ s.dots,
      e ∈ demoBoard.shot_dots ∧
      ∀ o : ShotOutcome, (Board.shot demoBoard e).2 ≠ Except.ok o)) :=
  shot_hit_spec demoBoard { x := 0, y := 0 } [demoHit] demoHit
    (Reachable.add (mkShip 0 0 1 0) ⟨Or.inl rfl, rfl, by decide⟩ (Reachable.init false))
    (by decide) (by decide) (by decide) (by decide)

/-- Each successful inner placement loop adds exactly one ship and one live
ship. -/
theorem placeShipGo_some (rnd : Nat → Int × Int × Nat) (len : Nat) :
    ∀ (fuel attempts : Nat) (board : Board) (a2 : Nat) (b2 : Board),
      placeShipGo rnd len fuel attempts board = some (a2, b2) →
      b2.ships.length = board.ships.length + 1 ∧ b2.live_ships = board.live_ships + 1 := by
  intro fuel
  induction fuel with
  | zero => intro attempts board a2 b2 h; cases h
  | succ fuel ih =>
    intro attempts board a2 b2 h
    rw [placeShipGo] at h
    by_cases hc : (mkShip (rnd (attempts + 1)).1 (rnd (attempts + 1)).2.1 len
        (rnd (attempts + 1)).2.2).dots.any (badDot board) = true
    · rw [add_ship_fail _ _ hc] at h
      exact ih (attempts + 1) board a2 b2 h
    · have hcf : (mkShip (rnd (attempts + 1)).1 (rnd (attempts + 1)).2.1 len
          (rnd (attempts + 1)).2.2).dots.any (badDot board) = false := by simpa using hc
      obtain ⟨hships, -, hlive, -, hok⟩ := add_ship_ok_char board _ hcf
      rw [hok] at h
      dsimp only at h
      have hinj := Option.some.inj h
      have hb2 : b2 = (board.add_ship (mkShip (rnd (attempts + 1)).1 (rnd (attempts + 1)).2.1 len
          (rnd (attempts + 1)).2.2)).1 := (congrArg Prod.snd hinj).symm
      subst hb2
      constructor
      · rw [hships, List.length_append]
        rfl
      · exact hlive

/-- A pending failure propagates through the remaining lengths. -/
theorem genFold_none (rnd : Nat → Int × Int × Nat) :
    ∀ ls : List Nat, ls.foldl (genStep rnd) none = none := by
  intro ls
  induction ls with
  | nil => rfl
  | cons len rest ih => rw [List.foldl_cons]; exact ih

/-- A successful generation fold adds one ship and one live ship per
configured length. -/
theorem genFold_some (rnd : Nat → Int × Int × Nat) :
    ∀ (ls : List Nat) (attempts : Nat) (board : Board) (a2 : Nat) (b2 : Board),
      ls.foldl (genStep rnd) (some (attempts, board)) = some (a2, b2) →
      b2.ships.length = board.ships.length + ls.length ∧
      b2.live_ships = board.live_ships + (ls.length : Int) := by
  intro ls
  induction ls with
  | nil =>
    intro attempts board a2 b2 h
    cases h
    simp
  | cons len rest ih =>
    intro attempts board a2 b2 h
    rw [List.foldl_cons] at h
    have hstep : genStep rnd (some (attempts, board)) len =
        placeShipLoop rnd len attempts board := rfl
    rw [hstep] at h
    cases hp : placeShipLoop rnd len attempts board with
    | none =>
      rw [hp, genFold_none rnd rest] at h
      cases h
    | some q =>
      obtain ⟨a1, b1⟩ := q
      rw [hp] at h
      have h1 := placeShipGo_some rnd len (2000 - attempts) attempts board a1 b1 hp
      have h2 := ih a1 b1 a2 b2 h
      constructor
      · rw [h2.1, h1.1, List.length_cons]
        omega
      · rw [h2.2, h1.2, List.length_cons]
        push_cast
        ring

theorem tg_eq (rnd : Nat → Int × Int × Nat) :
    try_generate_board rnd =
      match fleetLens.foldl (genStep rnd) (some (0, Board.init false)) with
      | none => none
      | some (_, board) => some board := rfl

/-- C7: one board-generation attempt always terminates (the single shared
attempt counter, incremented on every sample, acts as the fuel bound of 2000
for the whole board, not per vessel length): it either gives up before all 7
vessels are placed, reported as `none`, or returns a board with exactly 7
ships and `live_ships = 7`, whatever the random samples are. -/
theorem generate_board_spec (rnd : Nat → Int × Int × Nat) :
    try_generate_board rnd = none ∨
    ∃ b : Board, try_generate_board rnd = some b ∧
      b.ships.length = 7 ∧ b.live_ships = 7 := by
  cases hfold : fleetLens.foldl (genStep rnd) (some (0, Board.init false)) with
  | none =>
    left
    rw [tg_eq, hfold]
  | some q =>
    obtain ⟨a2, b2⟩ := q
    right
    refine ⟨b2, by rw [tg_eq, hfold], ?_, ?_⟩
    · have h := (genFold_some rnd fleetLens 0 (Board.init false) a2 b2 hfold).1
      simpa [Board.init, fleetLens] using h
    · have h := (genFold_some rnd fleetLens 0 (Board.init false) a2 b2 hfold).2
      simpa [Board.init, fleetLens] using h

/-- C9: a successful non-sinking shot changes nothing but the targeted cell,
the shot record, and (when a vessel was hit) that vessel's lives: busy dots,
live-ship counter, `hid` flag and every other in-bounds cell are unchanged,
`shot_dots` grows by exactly the target, and the ship list is unchanged on a
miss and changed only in the first matching vessel's lives on a wound. -/
theorem shot_frame (b : Board) (d : Dot) (out : ShotOutcome)
    (hf : FieldShape b.field)
    (hok : (Board.shot b d).2 = Except.ok out) (hns : out ≠ ShotOutcome.sunk) :
    (Board.shot b d).1.busy_dots = b.busy_dots ∧
    (Board.shot b d).1.live_ships = b.live_ships ∧
    (Board.shot b d).1.shot_dots = b.shot_dots ++ [d] ∧
    (Board.shot b d).1.hid = b.hid ∧
    (∀ e : Dot, Board.out e = false → e ≠ d →
      getCell (Board.shot b d).1.field e = getCell b.field e) ∧
    (out = ShotOutcome.missed → (Board.shot b d).1.ships = b.ships ∧
      getCell (Board.shot b d).1.field d = Cell.loseSign) ∧
    (out = ShotOutcome.wounded → ∃ pre s0 post,
      b.ships = pre ++ s0 :: post ∧ d ∈ s0.dots ∧
      (Board.shot b d).1.ships = pre ++ ({ s0 with lives := s0.lives - 1 }) :: post ∧
      getCell (Board.shot b d).1.field d = Cell.hitSign) := by
  rcases shot_shape b d with ⟨_, heq⟩ | ⟨_, _, heq⟩ | ⟨h1, h2, o, -⟩
  · rw [heq] at hok; cases hok
  · rw [heq] at hok; cases hok
  · have h1n : ¬ Board.out d = true := by simp [h1]
    cases hss : shotShips d b.ships with
    | none =>
      rw [shot_miss_char b d h1n h2 hss] at hok ⊢
      have hout : out = ShotOutcome.missed := (Except.ok.inj hok).symm
      refine ⟨rfl, rfl, rfl, rfl, ?_, ?_, ?_⟩
      · intro e hein hene
        exact getCell_setCell_ne b.field d e Cell.loseSign hf h1 hein hene
      · intro _
        exact ⟨rfl, getCell_setCell_self b.field d Cell.loseSign hf h1⟩
      · intro hw
        rw [hout] at hw
        cases hw
    | some p =>
      obtain ⟨ships2, hit⟩ := p
      rw [shot_hit_char b d ships2 hit h1n h2 hss] at hok ⊢
      by_cases hz : hit.lives = 0
      · rw [if_pos hz] at hok
        exact absurd (Except.ok.inj hok).symm hns
      · rw [if_neg hz] at hok ⊢
        have hout : out = ShotOutcome.wounded := (Except.ok.inj hok).symm
        obtain ⟨pre, s0, post, hsplit, hpre, hd0, hhit, hships2⟩ :=
          shotShips_some_char d b.ships (ships2, hit) hss
        dsimp only at hhit hships2
        refine ⟨rfl, rfl, rfl, rfl, ?_, ?_, ?_⟩
        · intro e hein hene
          exact getCell_setCell_ne b.field d e Cell.hitSign hf h1 hein hene
        · intro hm
          rw [hout] at hm
          cases hm
        · intro _
          refine ⟨pre, s0, post, hsplit, hd0, ?_,
            getCell_setCell_self b.field d Cell.hitSign hf h1⟩
          show ships2 = pre ++ { s0 with lives := s0.lives - 1 } :: post
          rw [hships2, hhit]

/-- Witness for `shot_frame`: a miss at `(5, 5)` on the fresh board. -/
theorem shot_frame_inst :
    (Board.shot (Board.init false) ⟨5, 5⟩).1.busy_dots = (Board.init false).busy_dots ∧
    (Board.shot (Board.init false) ⟨5, 5⟩).1.live_ships = (Board.init false).live_ships ∧
    (Board.shot (Board.init false) ⟨5, 5⟩).1.shot_dots =
      (Board.init false).shot_dots ++ [⟨5, 5⟩] ∧
    (Board.shot (Board.init false) ⟨5, 5⟩).1.hid = (Board.init false).hid ∧
    (∀ e : Dot, Board.out e = false → e ≠ ⟨5, 5⟩ →
      getCell (Board.shot (Board.init false) ⟨5, 5⟩).1.field e =
        getCell (Board.init false).field e) ∧
    (ShotOutcome.missed = ShotOutcome.missed →
      (Board.shot (Board.init false) ⟨5, 5⟩).1.ships = (Board.init false).ships ∧
      getCell (Board.shot (Board.init false) ⟨5, 5⟩).1.field ⟨5, 5⟩ = Cell.loseSign) ∧
    (ShotOutcome.missed = ShotOutcome.wounded → ∃ pre s0 post,
      (Board.init false).ships = pre ++ s0 :: post ∧ (⟨5, 5⟩ : Dot) ∈ s0.dots ∧
      (Board.shot (Board.init false) ⟨5, 5⟩).1.ships =
        pre ++ ({ s0 with lives := s0.lives - 1 }) :: post ∧
      getCell (Board.shot (Board.init false) ⟨5, 5⟩).1.field ⟨5, 5⟩ = Cell.hitSign) :=
  shot_frame (Board.init false) ⟨5, 5⟩ ShotOutcome.missed (by decide) (by decide) (by decide)

/-- The outcome component of `Board.shot` never depends on `busy_dots`. -/
theorem shot_snd_busy (b : Board) (l : List Dot) (d : Dot) :
    (Board.shot { b with busy_dots := l } d).2 = (Board.shot b d).2 := by
  by_cases h1 : Board.out d = true
  · rw [Board.shot, if_pos h1, Board.shot, if_pos h1]
  · by_cases h2 : d ∈ b.shot_dots
    · have h2b : d ∈ ({ b with busy_dots := l } : Board).shot_dots := h2
      rw [Board.shot, if_neg h1, if_pos h2b, Board.shot, if_neg h1, if_pos h2]
    · cases hss : shotShips d b.ships with
      | none =>
        rw [shot_miss_char { b with busy_dots := l } d h1 h2 hss,
          shot_miss_char b d h1 h2 hss]
      | some p =>
        obtain ⟨ships2, hit⟩ := p
        rw [shot_hit_char { b with busy_dots := l } d ships2 hit h1 h2 hss,
          shot_hit_char b d ships2 hit h1 h2 hss]
        by_cases hz : hit.lives = 0
        · rw [if_pos hz, if_pos hz]
        · rw [if_neg hz, if_neg hz]

/-- C8: membership in `busy_dots` (including contour-marked cells) never
rejects a shot: an in-bounds fresh dot occupied by no vessel always yields
`missed` and the miss glyph, whatever the busy set or cell glyph there; a
shot can fail only with the out or used exception; and the outcome of `shot`
is the same for any value of `busy_dots`. -/
theorem shot_ignores_busy (b : Board) (d : Dot) (l : List Dot)
    (hf : FieldShape b.field) :
    (Board.out d = false → d ∉ b.shot_dots → (∀ s ∈ b.ships, d ∉ s.dots) →
      (Board.shot b d).2 = Except.ok ShotOutcome.missed ∧
      getCell (Board.shot b d).1.field d = Cell.loseSign) ∧
    (∀ e : BoardError, (Board.shot b d).2 = Except.error e →
      e = BoardError.outException ∨ e = BoardError.usedException) ∧
    (Board.shot { b with busy_dots := l } d).2 = (Board.shot b d).2 := by
  refine ⟨?_, ?_, shot_snd_busy b l d⟩
  · intro h1 h2 hno
    have h1n : ¬ Board.out d = true := by simp [h1]
    rw [shot_miss_char b d h1n h2 (shotShips_eq_none d b.ships hno)]
    exact ⟨rfl, getCell_setCell_self b.field d Cell.loseSign hf h1⟩
  · intro e he
    rcases shot_shape b d with ⟨_, heq⟩ | ⟨_, _, heq⟩ | ⟨_, _, o, hok⟩
    · left; rw [heq] at he; exact (Except.error.inj he).symm
    · right; rw [heq] at he; exact (Except.error.inj he).symm
    · rw [hok] at he; cases he

/-- Witness for `shot_ignores_busy`: the contour-blocked dot `(1, 1)` of
`demoBoard` (busy but occupied by no vessel). -/
theorem shot_ignores_busy_inst :
    (Board.out ⟨1, 1⟩ = false → (⟨1, 1⟩ : Dot) ∉ demoBoard.shot_dots →
      (∀ s ∈ demoBoard.ships, (⟨1, 1⟩ : Dot) ∉ s.dots) →
      (Board.shot demoBoard ⟨1, 1⟩).2 = Except.ok ShotOutcome.missed ∧
      getCell (Board.shot demoBoard ⟨1, 1⟩).1.field ⟨1, 1⟩ = Cell.loseSign) ∧
    (∀ e : BoardError, (Board.shot demoBoard ⟨1, 1⟩).2 = Except.error e →
      e = BoardError.outException ∨ e = BoardError.usedException) ∧
    (Board.shot { demoBoard with busy_dots := [] } ⟨1, 1⟩).2 =
      (Board.shot demoBoard ⟨1, 1⟩).2 :=
  shot_ignores_busy demoBoard ⟨1, 1⟩ [] (by decide)

/-- C10: the automated player's target `Dot(randint(0,5), randint(0,5))`
always lies in bounds, so an automated shot can never fail with the
out-of-bounds exception — only succeed or fail as already-fired. -/
theorem ai_ask_in_bounds (rx ry : Int)
    (h1 : 0 ≤ rx) (h2 : rx ≤ 5) (h3 : 0 ≤ ry) (h4 : ry ≤ 5) :
    Board.out (AI.ask rx ry) = false ∧
    ∀ b : Board, (Board.shot b (AI.ask rx ry)).2 ≠ Except.error BoardError.outException := by
  have hout : Board.out (AI.ask rx ry) = false := by
    rw [out_false_iff]
    refine ⟨h1, ?_, h3, ?_⟩
    · show rx < 6
      omega
    · show ry < 6
      omega
  refine ⟨hout, fun b hbad => ?_⟩
  rcases shot_shape b (AI.ask rx ry) with ⟨hT, -⟩ | ⟨-, -, heq⟩ | ⟨-, -, o, hok⟩
  · rw [hout] at hT
    cases hT
  · rw [heq] at hbad
    simp at hbad
  · rw [hok] at hbad
    cases hbad

/-- Witness for `ai_ask_in_bounds` at the sample `(0, 0)` against the fresh
board. -/
theorem ai_ask_in_bounds_inst :
    Board.out (AI.ask 0 0) = false ∧
    (Board.shot (Board.init false) (AI.ask 0 0)).2 ≠ Except.error BoardError.outException :=
  ⟨(ai_ask_in_bounds 0 0 (by decide) (by decide) (by decide) (by decide)).1,
   (ai_ask_in_bounds 0 0 (by decide) (by decide) (by decide) (by decide)).2 (Board.init false)⟩
